import Mathlib

/-!
Shallow embedding of the LinearRegression repository (C++ sources
`stats.h` and `linreg.h`) and verification of its specification.

Modelling conventions:
- `double` is modelled as `ℝ` (real-arithmetic semantics of the formulas;
  IEEE rounding is outside the model).
- a `sequence<T>` / `std::span<const T>` argument is a `List ℝ`.
- a C++ function that may throw `std::invalid_argument` returns an
  `Option`; `none` is the thrown exception, which `Option.bind`
  propagates to the caller exactly as an uncaught C++ exception would.
- `std::size_t` is modelled as `ℕ` with 64-bit wrap-around made explicit
  (`% 2 ^ 64`) at the one place the code subtracts (`ci_slope`'s
  `fitResult.n - 2`).
- the Student's-t quantile (`t_quantile`, a wrapper over an external
  Boost function that is not part of this repository) is a parameter
  `tq : ℝ → ℝ → ℝ` of the embedded `ci_slope`.
-/

namespace Stats

/-- Embedding of `Stats::mean` (stats.h, lines 46-61): throws
(`none`) on empty input, otherwise sums the data and divides by the
length. -/
noncomputable def mean (data : List ℝ) : Option ℝ :=
  if data = [] then none
  else some (data.sum / (data.length : ℝ))

/-- Embedding of `Stats::shift` (stats.h, lines 111-133): copies the
data, throws (`none`) on empty input, and otherwise subtracts the mean
from every element.  The mean call inside is on the same (non-empty)
data, so its error case cannot fire; the `Option.map` keeps the
propagation structure of the source. -/
noncomputable def shift (x : List ℝ) : Option (List ℝ) :=
  if x = [] then none
  else (mean x).map fun m => x.map fun e => e - m

/-- Embedding of `Stats::inner_product` (stats.h, lines 182-206): throws
(`none`) when the lengths differ or are below 2, otherwise returns
`Σ x[i] * y[i]` (a `transform_reduce` over the two ranges). -/
noncomputable def inner_product (x y : List ℝ) : Option ℝ :=
  if x.length ≠ y.length ∨ x.length < 2 then none
  else some (List.zipWith (fun a b => a * b) x y).sum

end Stats

namespace LinearRegression

/-- Embedding of `LinearRegression::FitResult<T>` (linreg.h, lines
36-46). -/
structure FitResult where
  beta0 : ℝ
  beta1 : ℝ
  rho : ℝ
  sxx : ℝ
  syy : ℝ
  sxy : ℝ
  sse : ℝ
  n : ℕ

/-- The default-constructed (`{}`) sentinel: every field
value-initialized to zero. -/
def FitResult.empty : FitResult := ⟨0, 0, 0, 0, 0, 0, 0, 0⟩

/-- Embedding of `LinearRegression::fit` (linreg.h, lines 82-151):
validates the lengths, centers both sequences, accumulates the sums of
squares, and fills the `FitResult`.  The `Option.bind` chain carries any
exception of the primitives to the caller (the source catches
nothing). -/
noncomputable def fit (x y : List ℝ) : Option FitResult :=
  if x.length ≠ y.length ∨ x.length < 3 then some FitResult.empty else
  (Stats.shift x).bind fun x0 =>
  (Stats.shift y).bind fun y0 =>
  (Stats.inner_product x0 x0).bind fun sxx =>
  if sxx = 0 then some FitResult.empty else
  (Stats.inner_product y0 y0).bind fun syy =>
  (Stats.inner_product x0 y0).bind fun sxy =>
  (Stats.mean y).bind fun meany =>
  (Stats.mean x).bind fun meanx =>
  let beta1 := sxy / sxx
  let beta0 := meany - beta1 * meanx
  let rho := sxy / Real.sqrt (sxx * syy)
  let sse :=
    (List.zipWith (fun xi yi =>
      (yi - (beta0 + beta1 * xi)) * (yi - (beta0 + beta1 * xi))) x y).sum
  some { beta0 := beta0, beta1 := beta1, rho := rho, sxx := sxx,
         syy := syy, sxy := sxy, sse := sse, n := x.length }

/-- Embedding of the `std::size_t` expression `fitResult.n - 2` in
`ci_slope` (linreg.h, line 241): unsigned 64-bit subtraction, which
wraps modulo `2 ^ 64` instead of going negative. -/
def dofNat (n : ℕ) : ℕ := (n + (2 ^ 64 - 2)) % 2 ^ 64

/-- Embedding of the local `sb` of `ci_slope` (linreg.h, lines 244-251):
`sqrt(scal * (1 - beta1^2 / scal) / dof)` with `scal = syy / sxx`.
`Real.sqrt` of a negative radicand is `0` where IEEE `std::sqrt` gives
NaN; the source computes it unconditionally either way. -/
noncomputable def seSlope (fr : FitResult) : ℝ :=
  Real.sqrt ((fr.syy / fr.sxx) *
    (1 - fr.beta1 * fr.beta1 / (fr.syy / fr.sxx)) / (dofNat fr.n : ℝ))

/-- Embedding of `LinearRegression::ci_slope` (linreg.h, lines 237-267),
parametrized by the external quantile provider `tq` (the source's
`t_quantile`, a Boost wrapper): returns
`(beta1 - k, beta1 + k)` with `k = tq (1 - alpha/2) dof * sb`,
with no validation of any kind. -/
noncomputable def ciSlope (tq : ℝ → ℝ → ℝ) (fr : FitResult) (alpha : ℝ) :
    ℝ × ℝ :=
  (fr.beta1 - tq (1 - (1 / 2) * alpha) (dofNat fr.n : ℝ) * seSlope fr,
   fr.beta1 + tq (1 - (1 / 2) * alpha) (dofNat fr.n : ℝ) * seSlope fr)

/-- Modelled from the spec: the repository's `t_quantile` delegates to
Boost (external, not in the sources), whose contract (§4.5) only
requires strict monotonicity in `p` for fixed `dof`.  `tq0` is one
concrete instance of that contract, used to instantiate closed
statements about `ci_slope`. -/
noncomputable def tq0 : ℝ → ℝ → ℝ := fun p _ => p

/-- Embedding of `LinearRegression::coeff_of_determination` (linreg.h,
lines 326-334): `rho * rho`. -/
noncomputable def coeff_of_determination (fr : FitResult) : ℝ :=
  fr.rho * fr.rho

end LinearRegression

namespace Spec

/-- Transcribed from the spec (§4.1): the arithmetic mean `Σ x[i] / n`. -/
noncomputable def mean (x : List ℝ) : ℝ := x.sum / (x.length : ℝ)

/-- Transcribed from the spec (§4.1): the mean-centered sequence
`x[i] - mean(x)`. -/
noncomputable def center (x : List ℝ) : List ℝ := x.map fun e => e - mean x

/-- Transcribed from the spec (§4.2 step 4): the inner product of the
two mean-centered sequences. -/
noncomputable def sxy (x y : List ℝ) : ℝ :=
  (List.zipWith (fun a b => a * b) (center x) (center y)).sum

/-- Transcribed from the spec (§4.2 step 3): `sxx = <x0, x0>` for the
centered `x0`; `sxx y` plays the role of `syy`. -/
noncomputable def sxx (x : List ℝ) : ℝ := sxy x x

/-- Transcribed from the spec (§4.2 step 5): `beta1 = sxy / sxx`. -/
noncomputable def beta1 (x y : List ℝ) : ℝ := sxy x y / sxx x

/-- Transcribed from the spec (§4.2 step 5): `beta0 = mean(y) - beta1 *
mean(x)` with the uncentered means. -/
noncomputable def beta0 (x y : List ℝ) : ℝ := mean y - beta1 x y * mean x

/-- Transcribed from the spec (§4.2 step 6): `rho = sxy / sqrt(sxx *
syy)`. -/
noncomputable def rho (x y : List ℝ) : ℝ :=
  sxy x y / Real.sqrt (sxx x * sxx y)

/-- Transcribed from the spec (§4.2 step 7): `sse = Σ (y[i] - (beta0 +
beta1 * x[i]))²` over the original uncentered data. -/
noncomputable def sse (x y : List ℝ) : ℝ :=
  (List.zipWith (fun xi yi =>
    (yi - (beta0 x y + beta1 x y * xi)) * (yi - (beta0 x y + beta1 x y * xi)))
    x y).sum

/-- The fully populated result the spec (§4.2) prescribes for a
successful fit. -/
noncomputable def fitResult (x y : List ℝ) : LinearRegression.FitResult :=
  ⟨beta0 x y, beta1 x y, rho x y, sxx x, sxx y, sxy x y, sse x y, x.length⟩

end Spec

theorem sum_map_sub (l : List ℝ) (m : ℝ) :
    (l.map fun e => e - m).sum = l.sum - (l.length : ℝ) * m := by
  induction l with
  | nil => simp
  | cons a t ih =>
    simp only [List.map_cons, List.sum_cons, List.length_cons, ih]
    push_cast
    ring

theorem center_length (x : List ℝ) : (Spec.center x).length = x.length := by
  simp [Spec.center]

theorem center_sum (x : List ℝ) (hx : x ≠ []) : (Spec.center x).sum = 0 := by
  have hl : (x.length : ℝ) ≠ 0 := by
    simpa using fun h => hx (List.length_eq_zero.mp h)
  simp only [Spec.center, Spec.mean, sum_map_sub]
  field_simp

theorem zipWith_mul_self (u : List ℝ) :
    List.zipWith (fun a b => a * b) u u = u.map fun a => a * a := by
  induction u with
  | nil => rfl
  | cons a t ih => simp [ih]

theorem sum_map_sq_nonneg (u : List ℝ) : 0 ≤ (u.map fun a => a * a).sum := by
  induction u with
  | nil => simp
  | cons a t ih =>
    simp only [List.map_cons, List.sum_cons]
    exact add_nonneg (mul_self_nonneg a) ih

theorem zip_affine_sq_sum_nonneg (u v : List ℝ) (t : ℝ) :
    0 ≤ (List.zipWith (fun a b => (t * a + b) * (t * a + b)) u v).sum := by
  induction u generalizing v with
  | nil => simp
  | cons a s ih =>
    cases v with
    | nil => simp
    | cons b w =>
      simp only [List.zipWith_cons_cons, List.sum_cons]
      exact add_nonneg (mul_self_nonneg _) (ih w)

theorem zip_affine_sq_sum_expand (u v : List ℝ) (h : u.length = v.length)
    (t : ℝ) :
    (List.zipWith (fun a b => (t * a + b) * (t * a + b)) u v).sum =
      ((u.map fun a => a * a).sum) * t ^ 2 +
        (2 * (List.zipWith (fun a b => a * b) u v).sum) * t +
        ((v.map fun b => b * b).sum) := by
  induction u generalizing v with
  | nil =>
    have : v = [] := List.length_eq_zero.mp h.symm
    simp [this]
  | cons a s ih =>
    cases v with
    | nil => simp at h
    | cons b w =>
      have hw : s.length = w.length := by simpa using h
      simp only [List.zipWith_cons_cons, List.sum_cons, List.map_cons,
        ih w hw]
      ring

theorem list_cauchy_schwarz (u v : List ℝ) (h : u.length = v.length) :
    ((List.zipWith (fun a b => a * b) u v).sum) ^ 2 ≤
      ((u.map fun a => a * a).sum) * ((v.map fun b => b * b).sum) := by
  have hq : ∀ t : ℝ, 0 ≤ ((u.map fun a => a * a).sum) * (t * t) +
      (2 * (List.zipWith (fun a b => a * b) u v).sum) * t +
      ((v.map fun b => b * b).sum) := by
    intro t
    have h1 := zip_affine_sq_sum_nonneg u v t
    rw [zip_affine_sq_sum_expand u v h t] at h1
    nlinarith [h1]
  have hd := discrim_le_zero hq
  simp only [discrim] at hd
  nlinarith [hd]

theorem mean_eq_spec (x : List ℝ) (hx : x ≠ []) :
    Stats.mean x = some (Spec.mean x) := by
  simp [Stats.mean, hx, Spec.mean]

theorem shift_eq_spec (x : List ℝ) (hx : x ≠ []) :
    Stats.shift x = some (Spec.center x) := by
  simp [Stats.shift, hx, mean_eq_spec x hx, Spec.center]

theorem inner_product_eq (x y : List ℝ) (hlen : x.length = y.length)
    (h2 : 2 ≤ x.length) :
    Stats.inner_product x y =
      some (List.zipWith (fun a b => a * b) x y).sum := by
  rw [Stats.inner_product, if_neg]
  push_neg
  exact ⟨hlen, h2⟩

theorem fit_of_guard (x y : List ℝ)
    (h : x.length ≠ y.length ∨ x.length < 3) :
    LinearRegression.fit x y = some LinearRegression.FitResult.empty := by
  rw [LinearRegression.fit, if_pos h]

theorem fit_of_valid (x y : List ℝ) (hlen : x.length = y.length)
    (h3 : 3 ≤ x.length) (hsxx : Spec.sxx x ≠ 0) :
    LinearRegression.fit x y = some (Spec.fitResult x y) := by
  have hx : x ≠ [] := by
    intro hnil
    rw [hnil] at h3
    simp at h3
  have hy : y ≠ [] := by
    intro hnil
    rw [hnil] at hlen
    simp at hlen
    exact absurd hlen hx
  have hguard : ¬(x.length ≠ y.length ∨ x.length < 3) := by
    push_neg
    exact ⟨hlen, h3⟩
  have i1 : Stats.inner_product (Spec.center x) (Spec.center x) =
      some (Spec.sxx x) := by
    rw [inner_product_eq (Spec.center x) (Spec.center x) rfl
      (by rw [center_length]; omega)]
    rfl
  have i2 : Stats.inner_product (Spec.center y) (Spec.center y) =
      some (Spec.sxx y) := by
    rw [inner_product_eq (Spec.center y) (Spec.center y) rfl
      (by rw [center_length]; omega)]
    rfl
  have i3 : Stats.inner_product (Spec.center x) (Spec.center y) =
      some (Spec.sxy x y) := by
    rw [inner_product_eq (Spec.center x) (Spec.center y)
      (by rw [center_length, center_length, hlen])
      (by rw [center_length]; omega)]
    rfl
  simp only [LinearRegression.fit, if_neg hguard, shift_eq_spec x hx,
    shift_eq_spec y hy, Option.some_bind, i1, i2, i3, mean_eq_spec x hx,
    mean_eq_spec y hy, if_neg hsxx]
  rfl

theorem fit_of_sxx_zero (x y : List ℝ) (hlen : x.length = y.length)
    (h3 : 3 ≤ x.length) (hsxx : Spec.sxx x = 0) :
    LinearRegression.fit x y = some LinearRegression.FitResult.empty := by
  have hx : x ≠ [] := by
    intro hnil
    rw [hnil] at h3
    simp at h3
  have hy : y ≠ [] := by
    intro hnil
    rw [hnil] at hlen
    simp at hlen
    exact absurd hlen hx
  have hguard : ¬(x.length ≠ y.length ∨ x.length < 3) := by
    push_neg
    exact ⟨hlen, h3⟩
  have i1 : Stats.inner_product (Spec.center x) (Spec.center x) =
      some (Spec.sxx x) := by
    rw [inner_product_eq (Spec.center x) (Spec.center x) rfl
      (by rw [center_length]; omega)]
    rfl
  simp only [LinearRegression.fit, if_neg hguard, shift_eq_spec x hx,
    shift_eq_spec y hy, Option.some_bind, i1, if_pos hsxx]

theorem zipWith_mul_comm (u v : List ℝ) :
    List.zipWith (fun a b => a * b) u v =
      List.zipWith (fun a b => a * b) v u := by
  induction u generalizing v with
  | nil => cases v <;> rfl
  | cons a s ih =>
    cases v with
    | nil => rfl
    | cons b w => simp [ih w, mul_comm]

theorem spec_sxx_nonneg (x : List ℝ) : 0 ≤ Spec.sxx x := by
  rw [Spec.sxx, Spec.sxy, zipWith_mul_self]
  exact sum_map_sq_nonneg _

theorem spec_sxy_sq_le (x y : List ℝ) (hlen : x.length = y.length) :
    Spec.sxy x y ^ 2 ≤ Spec.sxx x * Spec.sxx y := by
  have h := list_cauchy_schwarz (Spec.center x) (Spec.center y)
    (by rw [center_length, center_length, hlen])
  simp only [Spec.sxx, Spec.sxy, zipWith_mul_self]
  exact h

theorem rho_sq_mem_unit (x y : List ℝ) (hlen : x.length = y.length) :
    0 ≤ Spec.rho x y * Spec.rho x y ∧ Spec.rho x y * Spec.rho x y ≤ 1 := by
  have hcs := spec_sxy_sq_le x y hlen
  have hc : 0 ≤ Spec.sxx x * Spec.sxx y :=
    mul_nonneg (spec_sxx_nonneg x) (spec_sxx_nonneg y)
  rcases eq_or_lt_of_le hc with h0 | hpos
  · rw [Spec.rho, ← h0, Real.sqrt_zero, div_zero]
    norm_num
  · have hsq : Spec.rho x y * Spec.rho x y =
        Spec.sxy x y ^ 2 / (Spec.sxx x * Spec.sxx y) := by
      rw [Spec.rho, div_mul_div_comm, Real.mul_self_sqrt hc, sq]
    rw [hsq]
    constructor
    · positivity
    · rw [div_le_one hpos]
      exact hcs

theorem fit_isSome_cases (x y : List ℝ) :
    (LinearRegression.fit x y).isSome = true := by
  by_cases hg : x.length ≠ y.length ∨ x.length < 3
  · rw [fit_of_guard x y hg]
    rfl
  · push_neg at hg
    obtain ⟨hlen, h3⟩ := hg
    by_cases hs : Spec.sxx x = 0
    · rw [fit_of_sxx_zero x y hlen h3 hs]
      rfl
    · rw [fit_of_valid x y hlen h3 hs]
      rfl

theorem fit_some_ne_empty (x y : List ℝ) (r : LinearRegression.FitResult)
    (hfit : LinearRegression.fit x y = some r)
    (hne : r ≠ LinearRegression.FitResult.empty) :
    x.length = y.length ∧ 3 ≤ x.length ∧ Spec.sxx x ≠ 0 ∧
      r = Spec.fitResult x y := by
  by_cases hg : x.length ≠ y.length ∨ x.length < 3
  · rw [fit_of_guard x y hg] at hfit
    exact absurd (Option.some.inj hfit).symm hne
  · push_neg at hg
    obtain ⟨hlen, h3⟩ := hg
    by_cases hs : Spec.sxx x = 0
    · rw [fit_of_sxx_zero x y hlen h3 hs] at hfit
      exact absurd (Option.some.inj hfit).symm hne
    · rw [fit_of_valid x y hlen h3 hs] at hfit
      exact ⟨hlen, h3, hs, (Option.some.inj hfit).symm⟩

/-- C6: `mean` and `shift` fail with `InvalidArgument` (modelled by
`none`) exactly on an empty sequence, and `inner_product` fails exactly
when its sequences have different lengths or a length below 2; the
error is the function's result, so it reaches every caller and is never
silently recovered. -/
theorem primitives_invalid_argument :
    (∀ x : List ℝ, Stats.mean x = none ↔ x = []) ∧
    (∀ x : List ℝ, Stats.shift x = none ↔ x = []) ∧
    (∀ x y : List ℝ, Stats.inner_product x y = none ↔
      (x.length ≠ y.length ∨ x.length < 2)) := by
  refine ⟨fun x => ?_, fun x => ?_, fun x y => ?_⟩
  · constructor
    · intro h
      by_contra hx
      simp [Stats.mean, hx] at h
    · intro h
      simp [Stats.mean, h]
  · constructor
    · intro h
      by_contra hx
      simp [Stats.shift, hx, Stats.mean] at h
    · intro h
      simp [Stats.shift, h]
  · constructor
    · intro h
      by_contra hc
      simp [Stats.inner_product, hc] at h
    · intro h
      simp [Stats.inner_product, h]

/-- C7: for every non-empty sequence `x`, `shift` returns a new sequence
of the same length with the mean of `x` subtracted from every element
(the input itself is untouched: the embedding is pure, as is the source,
which writes into a copy), and the mean of the result is exactly 0 in
real arithmetic. -/
theorem shift_centers_and_mean_zero (x : List ℝ) (hx : x ≠ []) :
    Stats.shift x = some (x.map fun e => e - x.sum / (x.length : ℝ)) ∧
    (x.map fun e => e - x.sum / (x.length : ℝ)).length = x.length ∧
    Stats.mean (x.map fun e => e - x.sum / (x.length : ℝ)) = some 0 := by
  have hc : (x.map fun e => e - x.sum / (x.length : ℝ)) = Spec.center x := rfl
  refine ⟨by rw [shift_eq_spec x hx, hc], by simp, ?_⟩
  have hne : (x.map fun e => e - x.sum / (x.length : ℝ)) ≠ [] := by
    simpa [hc, Spec.center] using hx
  rw [mean_eq_spec _ hne]
  have hm : Spec.mean (x.map fun e => e - x.sum / (x.length : ℝ)) = 0 := by
    rw [hc, Spec.mean, center_sum x hx, zero_div]
  rw [hm]

/-- C7 witness: the theorem applied to the concrete input `[1, 2, 3]`. -/
theorem shift_centers_and_mean_zero_witness :
    ([1, 2, 3] : List ℝ) ≠ [] ∧
      (Stats.shift [1, 2, 3] =
          some (([1, 2, 3] : List ℝ).map fun e =>
            e - ([1, 2, 3] : List ℝ).sum / ((([1, 2, 3] : List ℝ)).length : ℝ)) ∧
        (([1, 2, 3] : List ℝ).map fun e =>
            e - ([1, 2, 3] : List ℝ).sum /
              ((([1, 2, 3] : List ℝ)).length : ℝ)).length =
          ([1, 2, 3] : List ℝ).length ∧
        Stats.mean (([1, 2, 3] : List ℝ).map fun e =>
            e - ([1, 2, 3] : List ℝ).sum / ((([1, 2, 3] : List ℝ)).length : ℝ)) =
          some 0) :=
  ⟨by simp, shift_centers_and_mean_zero [1, 2, 3] (by simp)⟩

/-- C8: `inner_product` is commutative on equal-length inputs; when the
shared length is below 2 both orders fail identically (`none = none`),
and otherwise both orders return the same sum. -/
theorem inner_product_commutative (x y : List ℝ)
    (hlen : x.length = y.length) :
    Stats.inner_product x y = Stats.inner_product y x := by
  by_cases h2 : 2 ≤ x.length
  · rw [inner_product_eq x y hlen h2,
      inner_product_eq y x hlen.symm (hlen ▸ h2)]
    rw [zipWith_mul_comm]
  · have hx2 : x.length < 2 := by omega
    have hy2 : y.length < 2 := by omega
    simp only [Stats.inner_product]
    rw [if_pos (Or.inr hx2), if_pos (Or.inr hy2)]

/-- C8 witness: the theorem applied to the concrete inputs `[1, 2]` and
`[3, 4]`. -/
theorem inner_product_commutative_witness :
    ([1, 2] : List ℝ).length = ([3, 4] : List ℝ).length ∧
    Stats.inner_product [1, 2] [3, 4] = Stats.inner_product [3, 4] [1, 2] :=
  ⟨rfl, inner_product_commutative [1, 2] [3, 4] rfl⟩

/-- C9: `fit` never throws: after its own validation, every internal
call to `shift`, `mean` and `inner_product` meets that callee's
precondition, so the error branches of the primitives are unreachable
and `fit` always returns a value (`isSome`). -/
theorem fit_never_throws (x y : List ℝ) :
    (LinearRegression.fit x y).isSome = true :=
  fit_isSome_cases x y

/-- C3: `fit` returns a value for every input (no exception), and that
value is the all-zero sentinel exactly when the lengths differ, the
length is below 3, or the centered sum of squares of `x` is zero. -/
theorem fit_sentinel_iff (x y : List ℝ) :
    (LinearRegression.fit x y).isSome = true ∧
    (LinearRegression.fit x y = some LinearRegression.FitResult.empty ↔
      (x.length ≠ y.length ∨ x.length < 3 ∨ Spec.sxx x = 0)) := by
  refine ⟨fit_isSome_cases x y, ?_, ?_⟩
  · intro h
    by_contra hc
    push_neg at hc
    obtain ⟨h1, h2, h3⟩ := hc
    rw [fit_of_valid x y h1 h2 h3] at h
    have hn : x.length = 0 :=
      congrArg LinearRegression.FitResult.n (Option.some.inj h)
    omega
  · intro h
    rcases h with h | h | h
    · exact fit_of_guard x y (Or.inl h)
    · exact fit_of_guard x y (Or.inr h)
    · by_cases hg : x.length ≠ y.length ∨ x.length < 3
      · exact fit_of_guard x y hg
      · push_neg at hg
        exact fit_of_sxx_zero x y hg.1 hg.2 h

/-- C2: for equal-length inputs with at least 3 points and a non-zero
centered sum of squares of `x`, `fit` returns exactly the record the
spec prescribes (`Spec.fitResult`): centered sums `sxx`, `syy`, `sxy`,
`beta1 = sxy / sxx`, `beta0 = mean y - beta1 * mean x` from the
uncentered means, `rho = sxy / sqrt(sxx * syy)`, `sse` the residual sum
over the raw data, and `n` the input length. -/
theorem fit_matches_spec (x y : List ℝ) (hlen : x.length = y.length)
    (h3 : 3 ≤ x.length) (hsxx : Spec.sxx x ≠ 0) :
    LinearRegression.fit x y = some (Spec.fitResult x y) :=
  fit_of_valid x y hlen h3 hsxx

/-- C2 witness: the theorem applied to `x = [1, 2, 3]`,
`y = [1, 2, 6]`. -/
theorem fit_matches_spec_witness :
    (([1, 2, 3] : List ℝ).length = ([1, 2, 6] : List ℝ).length ∧
      3 ≤ ([1, 2, 3] : List ℝ).length ∧ Spec.sxx [1, 2, 3] ≠ 0) ∧
    LinearRegression.fit [1, 2, 3] [1, 2, 6] =
      some (Spec.fitResult [1, 2, 3] [1, 2, 6]) := by
  have h : Spec.sxx ([1, 2, 3] : List ℝ) ≠ 0 := by
    norm_num [Spec.sxx, Spec.sxy, Spec.center, Spec.mean]
  exact ⟨⟨rfl, by norm_num, h⟩,
    fit_matches_spec [1, 2, 3] [1, 2, 6] rfl (by norm_num) h⟩

/-- C4: for every `FitResult` produced by a successful `fit` (a
non-sentinel result), `coeff_of_determination` returns exactly
`rho * rho`, and that value lies in the closed interval `[0, 1]`. -/
theorem coeff_of_determination_unit (x y : List ℝ)
    (r : LinearRegression.FitResult)
    (hfit : LinearRegression.fit x y = some r)
    (hne : r ≠ LinearRegression.FitResult.empty) :
    LinearRegression.coeff_of_determination r = r.rho * r.rho ∧
    0 ≤ LinearRegression.coeff_of_determination r ∧
    LinearRegression.coeff_of_determination r ≤ 1 := by
  obtain ⟨hlen, h3, hs, hr⟩ := fit_some_ne_empty x y r hfit hne
  subst hr
  have hb := rho_sq_mem_unit x y hlen
  exact ⟨rfl, hb.1, hb.2⟩

/-- C4 witness: the theorem applied to the fit of `[1, 2, 3]`,
`[1, 2, 6]`. -/
theorem coeff_of_determination_unit_witness :
    (LinearRegression.fit [1, 2, 3] [1, 2, 6] =
        some (Spec.fitResult [1, 2, 3] [1, 2, 6]) ∧
      Spec.fitResult ([1, 2, 3] : List ℝ) [1, 2, 6] ≠
        LinearRegression.FitResult.empty) ∧
    (LinearRegression.coeff_of_determination
          (Spec.fitResult [1, 2, 3] [1, 2, 6]) =
        (Spec.fitResult ([1, 2, 3] : List ℝ) [1, 2, 6]).rho *
          (Spec.fitResult ([1, 2, 3] : List ℝ) [1, 2, 6]).rho ∧
      0 ≤ LinearRegression.coeff_of_determination
          (Spec.fitResult [1, 2, 3] [1, 2, 6]) ∧
      LinearRegression.coeff_of_determination
          (Spec.fitResult [1, 2, 3] [1, 2, 6]) ≤ 1) := by
  have hsxx : Spec.sxx ([1, 2, 3] : List ℝ) ≠ 0 := by
    norm_num [Spec.sxx, Spec.sxy, Spec.center, Spec.mean]
  have hfit : LinearRegression.fit [1, 2, 3] [1, 2, 6] =
      some (Spec.fitResult [1, 2, 3] [1, 2, 6]) :=
    fit_of_valid [1, 2, 3] [1, 2, 6] rfl (by norm_num) hsxx
  have hne : Spec.fitResult ([1, 2, 3] : List ℝ) [1, 2, 6] ≠
      LinearRegression.FitResult.empty := by
    intro h
    have h30 : (3 : ℕ) = 0 := congrArg LinearRegression.FitResult.n h
    exact absurd h30 (by decide)
  exact ⟨⟨hfit, hne⟩,
    coeff_of_determination_unit [1, 2, 3] [1, 2, 6] _ hfit hne⟩

/-- C10: `ci_slope` computes its degrees of freedom by the unsigned
64-bit machine subtraction `n - 2` before any conversion to floating
point, so for `n < 2` — in particular the all-zero sentinel, whose `n`
is 0 — the result equals `(n - 2) mod 2^64`, an enormous positive value
rather than a negative or zero count. -/
theorem dof_wraps_for_small_n (n : ℕ) (h : n < 2) :
    ((LinearRegression.dofNat n : ℤ) = ((n : ℤ) - 2) % 2 ^ 64 ∧
      2 ^ 64 - 2 ≤ LinearRegression.dofNat n) ∧
    LinearRegression.dofNat LinearRegression.FitResult.empty.n =
      2 ^ 64 - 2 := by
  refine ⟨?_, by decide⟩
  interval_cases n
  · exact ⟨by decide, by decide⟩
  · exact ⟨by decide, by decide⟩

/-- C10 witness: the theorem applied at `n = 0`, the sentinel's sample
size. -/
theorem dof_wraps_for_small_n_witness :
    (0 : ℕ) < 2 ∧
    (((LinearRegression.dofNat 0 : ℤ) = (((0 : ℕ) : ℤ) - 2) % 2 ^ 64 ∧
        2 ^ 64 - 2 ≤ LinearRegression.dofNat 0) ∧
      LinearRegression.dofNat LinearRegression.FitResult.empty.n =
        2 ^ 64 - 2) :=
  ⟨by decide, dof_wraps_for_small_n 0 (by decide)⟩

/-- C1 counterexample: `ci_slope` invoked on the all-zero sentinel —
`dof` degenerate and `scal = syy / sxx` of the form `0 / 0` — raises
nothing and returns a plain interval (in the real-number model the
concrete pair `(0, 0)`; in IEEE arithmetic a NaN pair), refuting the
claim that a `DegenerateFit` error is produced. -/
theorem ciSlope_sentinel_silent :
    LinearRegression.ciSlope LinearRegression.tq0
      LinearRegression.FitResult.empty (1 / 20) = (0, 0) := by
  simp [LinearRegression.ciSlope, LinearRegression.seSlope,
    LinearRegression.FitResult.empty, LinearRegression.tq0]

/-- C1 (amended): `ci_slope` performs no validation whatsoever: whenever
the standard-error radicand `scal * (1 - beta1^2 / scal) / dof` is not
positive (which covers `scal = 0`, `beta1^2 > scal`, and a degenerate
`dof`), it silently returns the interval `(beta1, beta1)` in the
real-number model (the IEEE code silently returns NaN bounds); no
`DegenerateFit` error path exists in the code. -/
theorem ciSlope_nonpos_radicand_silent (tq : ℝ → ℝ → ℝ)
    (fr : LinearRegression.FitResult) (alpha : ℝ)
    (h : (fr.syy / fr.sxx) *
        (1 - fr.beta1 * fr.beta1 / (fr.syy / fr.sxx)) /
        (LinearRegression.dofNat fr.n : ℝ) ≤ 0) :
    LinearRegression.ciSlope tq fr alpha = (fr.beta1, fr.beta1) := by
  have hse : LinearRegression.seSlope fr = 0 := by
    rw [LinearRegression.seSlope]
    exact Real.sqrt_eq_zero_of_nonpos h
  simp [LinearRegression.ciSlope, hse]

/-- C1 witness: the amended theorem applied to the sentinel result with
`alpha = 1/20` and the stand-in quantile provider. -/
theorem ciSlope_nonpos_radicand_silent_witness :
    ((LinearRegression.FitResult.empty.syy /
          LinearRegression.FitResult.empty.sxx) *
        (1 - LinearRegression.FitResult.empty.beta1 *
            LinearRegression.FitResult.empty.beta1 /
              (LinearRegression.FitResult.empty.syy /
                LinearRegression.FitResult.empty.sxx)) /
        (LinearRegression.dofNat LinearRegression.FitResult.empty.n : ℝ) ≤
      0) ∧
    LinearRegression.ciSlope LinearRegression.tq0
        LinearRegression.FitResult.empty (1 / 20) =
      (LinearRegression.FitResult.empty.beta1,
        LinearRegression.FitResult.empty.beta1) := by
  have h : (LinearRegression.FitResult.empty.syy /
        LinearRegression.FitResult.empty.sxx) *
      (1 - LinearRegression.FitResult.empty.beta1 *
          LinearRegression.FitResult.empty.beta1 /
            (LinearRegression.FitResult.empty.syy /
              LinearRegression.FitResult.empty.sxx)) /
      (LinearRegression.dofNat LinearRegression.FitResult.empty.n : ℝ) ≤
      0 := by
    simp [LinearRegression.FitResult.empty]
  exact ⟨h, ciSlope_nonpos_radicand_silent LinearRegression.tq0
    LinearRegression.FitResult.empty (1 / 20) h⟩

/-- C5 counterexample: the perfectly collinear sample `x = [1, 2, 3]`,
`y = [2, 4, 6]` yields a valid fit (`sxx = 2 ≠ 0`, `n = 3`), but its
standard error is 0 (`rho = 1`, `beta1² = scal` exactly), so `ci_slope`
returns the same degenerate interval `(2, 2)` for `alpha = 1/10` and the
smaller `alpha' = 1/20`: the interval does not strictly widen as the
significance level decreases. -/
theorem ciSlope_perfect_fit_not_wider :
    LinearRegression.fit [1, 2, 3] [2, 4, 6] =
      some { beta0 := 0, beta1 := 2, rho := 1, sxx := 2, syy := 8,
             sxy := 4, sse := 0, n := 3 } ∧
    LinearRegression.ciSlope LinearRegression.tq0
        { beta0 := 0, beta1 := 2, rho := 1, sxx := 2, syy := 8,
          sxy := 4, sse := 0, n := 3 } (1 / 20) = (2, 2) ∧
    LinearRegression.ciSlope LinearRegression.tq0
        { beta0 := 0, beta1 := 2, rho := 1, sxx := 2, syy := 8,
          sxy := 4, sse := 0, n := 3 } (1 / 10) = (2, 2) := by
  have hse : LinearRegression.seSlope
      { beta0 := 0, beta1 := 2, rho := 1, sxx := 2, syy := 8,
        sxy := 4, sse := 0, n := 3 } = 0 := by
    simp only [LinearRegression.seSlope]
    norm_num [Real.sqrt_zero]
  refine ⟨?_, ?_, ?_⟩
  · have h1 : LinearRegression.fit [1, 2, 3] [2, 4, 6] =
        some (Spec.fitResult [1, 2, 3] [2, 4, 6]) :=
      fit_of_valid [1, 2, 3] [2, 4, 6] rfl (by norm_num)
        (by norm_num [Spec.sxx, Spec.sxy, Spec.center, Spec.mean])
    rw [h1]
    congr 1
    have h16 : Real.sqrt ((16 : ℝ)) = 4 := by
      rw [show (16 : ℝ) = 4 ^ 2 by norm_num,
        Real.sqrt_sq (by norm_num : (0 : ℝ) ≤ 4)]
    simp only [Spec.fitResult, LinearRegression.FitResult.mk.injEq]
    refine ⟨?_, ?_, ?_, ?_, ?_, ?_, ?_, ?_⟩
    · norm_num [Spec.beta0, Spec.beta1, Spec.sxy, Spec.sxx, Spec.center,
        Spec.mean]
    · norm_num [Spec.beta1, Spec.sxy, Spec.sxx, Spec.center, Spec.mean]
    · rw [Spec.rho]
      norm_num [Spec.sxy, Spec.sxx, Spec.center, Spec.mean, h16]
    · norm_num [Spec.sxx, Spec.sxy, Spec.center, Spec.mean]
    · norm_num [Spec.sxx, Spec.sxy, Spec.center, Spec.mean]
    · norm_num [Spec.sxy, Spec.center, Spec.mean]
    · norm_num [Spec.sse, Spec.beta0, Spec.beta1, Spec.sxy, Spec.sxx,
        Spec.center, Spec.mean]
    · norm_num
  · simp [LinearRegression.ciSlope, hse]
  · simp [LinearRegression.ciSlope, hse]

/-- C5 (amended): for every input the `ci_slope` interval is symmetric
around `beta1` (midpoint `beta1`, one margin); and whenever the quantile
provider is strictly monotone in `p` (the spec's contract for the
external `t_quantile`) and the standard error is strictly positive, the
interval for the smaller significance level `a'` is strictly wider than
the one for `a`.  (When the standard error is zero — a perfect fit —
the intervals coincide; see the counterexample.) -/
theorem ciSlope_symmetric_and_widens :
    (∀ (tq : ℝ → ℝ → ℝ) (fr : LinearRegression.FitResult) (a : ℝ),
      (LinearRegression.ciSlope tq fr a).1 +
          (LinearRegression.ciSlope tq fr a).2 = 2 * fr.beta1) ∧
    (∀ (tq : ℝ → ℝ → ℝ) (fr : LinearRegression.FitResult) (a a' : ℝ),
      (∀ p q : ℝ, 0 < p → p < q → q < 1 →
        tq p (LinearRegression.dofNat fr.n : ℝ) <
          tq q (LinearRegression.dofNat fr.n : ℝ)) →
      0 < a' → a' < a → a < 1 → 0 < LinearRegression.seSlope fr →
      ((LinearRegression.ciSlope tq fr a').1 <
          (LinearRegression.ciSlope tq fr a).1 ∧
        (LinearRegression.ciSlope tq fr a).2 <
          (LinearRegression.ciSlope tq fr a').2)) := by
  constructor
  · intro tq fr a
    simp only [LinearRegression.ciSlope]
    ring
  · intro tq fr a a' htq ha' haa ha hsb
    have hq : tq (1 - (1 / 2) * a) (LinearRegression.dofNat fr.n : ℝ) <
        tq (1 - (1 / 2) * a') (LinearRegression.dofNat fr.n : ℝ) :=
      htq _ _ (by linarith) (by linarith) (by linarith)
    have hk := mul_lt_mul_of_pos_right hq hsb
    constructor
    · simp only [LinearRegression.ciSlope]
      linarith
    · simp only [LinearRegression.ciSlope]
      linarith

/-- C5 witness: both parts of the amended theorem instantiated at the
stand-in monotone quantile `tq0`, a concrete result with positive
standard error, and the levels `1/10 > 1/20`. -/
theorem ciSlope_symmetric_and_widens_witness :
    ((LinearRegression.ciSlope LinearRegression.tq0
          { beta0 := 0, beta1 := 0, rho := 0, sxx := 1, syy := 1,
            sxy := 0, sse := 0, n := 3 } (1 / 10)).1 +
        (LinearRegression.ciSlope LinearRegression.tq0
          { beta0 := 0, beta1 := 0, rho := 0, sxx := 1, syy := 1,
            sxy := 0, sse := 0, n := 3 } (1 / 10)).2 =
      2 * ({ beta0 := 0, beta1 := 0, rho := 0, sxx := 1, syy := 1,
             sxy := 0, sse := 0, n := 3 } :
          LinearRegression.FitResult).beta1) ∧
    ((0 : ℝ) < 1 / 20 ∧ (1 / 20 : ℝ) < 1 / 10 ∧ (1 / 10 : ℝ) < 1 ∧
      0 < LinearRegression.seSlope
        { beta0 := 0, beta1 := 0, rho := 0, sxx := 1, syy := 1,
          sxy := 0, sse := 0, n := 3 }) ∧
    ((LinearRegression.ciSlope LinearRegression.tq0
          { beta0 := 0, beta1 := 0, rho := 0, sxx := 1, syy := 1,
            sxy := 0, sse := 0, n := 3 } (1 / 20)).1 <
        (LinearRegression.ciSlope LinearRegression.tq0
          { beta0 := 0, beta1 := 0, rho := 0, sxx := 1, syy := 1,
            sxy := 0, sse := 0, n := 3 } (1 / 10)).1 ∧
      (LinearRegression.ciSlope LinearRegression.tq0
          { beta0 := 0, beta1 := 0, rho := 0, sxx := 1, syy := 1,
            sxy := 0, sse := 0, n := 3 } (1 / 10)).2 <
        (LinearRegression.ciSlope LinearRegression.tq0
          { beta0 := 0, beta1 := 0, rho := 0, sxx := 1, syy := 1,
            sxy := 0, sse := 0, n := 3 } (1 / 20)).2) := by
  have hsb : 0 < LinearRegression.seSlope
      { beta0 := 0, beta1 := 0, rho := 0, sxx := 1, syy := 1,
        sxy := 0, sse := 0, n := 3 } := by
    simp only [LinearRegression.seSlope, LinearRegression.dofNat]
    norm_num [Real.sqrt_one]
  exact ⟨ciSlope_symmetric_and_widens.1 LinearRegression.tq0 _ (1 / 10),
    ⟨by norm_num, by norm_num, by norm_num, hsb⟩,
    ciSlope_symmetric_and_widens.2 LinearRegression.tq0 _ (1 / 10) (1 / 20)
      (fun p q _ hpq _ => hpq) (by norm_num) (by norm_num) (by norm_num)
      hsb⟩
